import Mathlib

/-!
# Verification of `onlyfans-dl` against its specification

Shallow embedding of the core of `onlyfans_dl` (files
`client/structs.py` and `client/client.py`) together with theorems
settling the specification claims.

Modelling conventions, used throughout:

* Upstream timestamp strings (`posted_at`, `created_at`, HTTP
  `last-modified`) are parsed by the source with `strptime(...)` and
  immediately converted to integer unix seconds before any comparison;
  we embed them directly as the parsed unix-second value (`Nat`).
* `msgspec` `UNSET` optional fields become `Option _` (recall `UNSET`
  is falsy, so `if post.price:` is true exactly when the price is set
  and nonzero).
* Prices (`float` / `int | float`) are embedded as `Rat`; only their
  zero-ness is ever consulted.
* Python strings in the sanitizer are modelled as lists of code points
  (`List Nat`), with the regex character classes read at their ASCII
  meaning.
* Presentation-only record fields that no code path reads
  (e.g. `posted_at_precise`, `is_pinned`) are omitted.
-/

/-- `structs.Post.Media.Source`: nested source descriptor of a post's
media item. -/
structure Post.Media.Source where
  source : Option String
  width : Int
  height : Int
  size : Int
  duration : Int
deriving DecidableEq

/-- `structs.Post.Media`: one media item embedded in a post. -/
structure Post.Media where
  id : Int
  type : String
  can_view : Bool
  source : Post.Media.Source
deriving DecidableEq

/-- `structs.Post`.  `author` is `UNSET` when the post is reported
(modelled `none`, carrying just the `UserRef` id when present);
`expired_at` is `UNSET` when there is no expiry; `price` is `UNSET`
when free.  `posted_at` is embedded as parsed unix seconds. -/
structure Post where
  id : Int
  author : Option Int
  posted_at : Nat
  expired_at : Option Nat
  raw_text : Option String
  price : Option Rat
  media : List Post.Media
  preview : List Int
deriving DecidableEq

/-- `structs.Message.Media`: one media item embedded in a message
(`info.source` flattened to its `width`/`height`). -/
structure Message.Media where
  id : Int
  can_view : Bool
  type : String
  src : Option String
  duration : Int
  width : Int
  height : Int
deriving DecidableEq

/-- `structs.Message`.  `from_user` carries the sender's `UserRef.id`;
`created_at` is embedded as parsed unix seconds. -/
structure Message where
  text : Option String
  price : Rat
  media : List Message.Media
  previews : List Int
  from_user : Int
  id : Int
  created_at : Nat
deriving DecidableEq

/-- `structs.Story.Media`: one media item embedded in a story. -/
structure Story.Media where
  id : Int
  type : String
  can_view : Bool
  source : Option String
  width : Int
  height : Int
  duration : Int
deriving DecidableEq

/-- `structs.Story`.  `question` carries `question.entity.text` when
present; `created_at` is embedded as parsed unix seconds. -/
structure Story where
  id : Int
  user_id : Int
  created_at : Nat
  media : List Story.Media
  question : Option String
deriving DecidableEq

/-- `structs.NormalizedMedia`: the canonical media record.
`created_at` is embedded as unix seconds (the source stores the
timestamp string it later re-parses). -/
structure NormalizedMedia where
  user_id : Int
  source_type : String
  source_id : Int
  id : Int
  file_type : String
  created_at : Nat
  text : Option String
  width : Int
  height : Int
  duration : Int
  url : Option String
  value : String := "free"
  highlight_category : Option String := none
deriving DecidableEq

/-- Truthiness of a `float | UNSET` price: `UNSET` is falsy and so is
`0.0`. -/
def priceTruthy : Option Rat → Bool
  | none => false
  | some p => p != 0

/-- `structs.normalize_post_media`. -/
def normalize_post_media (post : Post) (skip_temporary : Bool := false) :
    List NormalizedMedia :=
  match post.author with
  | none => []
  | some author_id =>
    if post.media = [] ∨ (post.expired_at ≠ none ∧ skip_temporary) then []
    else
      (post.media.filter (·.can_view)).map fun media =>
        { user_id := author_id
          source_type := "posts"
          source_id := post.id
          id := media.id
          file_type := media.type
          created_at := post.posted_at
          value := if priceTruthy post.price then "paid" else "free"
          text := some (match post.raw_text with | none => "" | some t => t)
          width := media.source.width
          height := media.source.height
          duration := media.source.duration
          url := media.source.source }

/-- `structs.normalize_archived_post_media`. -/
def normalize_archived_post_media (post : Post) (skip_temporary : Bool := false) :
    List NormalizedMedia :=
  match post.author with
  | none => []
  | some author_id =>
    if post.media = [] ∨ (post.expired_at ≠ none ∧ skip_temporary) then []
    else
      (post.media.filter (·.can_view)).map fun media =>
        { user_id := author_id
          source_type := "archived"
          source_id := post.id
          id := media.id
          file_type := media.type
          created_at := post.posted_at
          value := if priceTruthy post.price ∧ media.id ∉ post.preview
                   then "paid" else "free"
          text := some (match post.raw_text with | none => "" | some t => t)
          width := media.source.width
          height := media.source.height
          duration := media.source.duration
          url := media.source.source }

/-- `structs.normalize_message_media`. -/
def normalize_message_media (message : Message) : List NormalizedMedia :=
  (message.media.filter (·.can_view)).map fun media =>
    { user_id := message.from_user
      source_type := "messages"
      source_id := message.id
      id := media.id
      file_type := media.type
      created_at := message.created_at
      value := if message.price ≠ 0 ∧ media.id ∉ message.previews
               then "paid" else "free"
      text := message.text
      width := media.width
      height := media.height
      duration := media.duration
      url := media.src }

/-- Python rendering of an optional string inside an f-string:
`None` prints as `"None"`. -/
def pyOptStr : Option String → String
  | none => "None"
  | some s => s

/-- `structs.normalize_story_media`. -/
def normalize_story_media (story : Story)
    (highlight_category : Option String := none) : List NormalizedMedia :=
  (story.media.filter (·.can_view)).map fun media =>
    { user_id := story.user_id
      source_type := "stories"
      source_id := story.id
      highlight_category := highlight_category
      id := media.id
      file_type := media.type
      created_at := story.created_at
      text := match story.question with
              | some q => some (pyOptStr highlight_category ++ "." ++ q)
              | none => highlight_category
      width := media.width
      height := media.height
      duration := media.duration
      url := media.source }

/-! ## Concrete records used by witnesses -/

/-- A concrete viewable photo media item of a post. -/
def wPostMedia : Post.Media :=
  { id := 11, type := "photo", can_view := true
    source := { source := some "u", width := 1, height := 2, size := 3, duration := 4 } }

/-- A concrete non-viewable media item of a post. -/
def wPostMediaLocked : Post.Media :=
  { id := 12, type := "photo", can_view := false
    source := { source := none, width := 1, height := 2, size := 3, duration := 4 } }

/-- A concrete priced post with one viewable and one locked media item. -/
def wPost : Post :=
  { id := 7, author := some 3, posted_at := 100, expired_at := none
    raw_text := some "hi", price := some 5
    media := [wPostMedia, wPostMediaLocked], preview := [] }

/-- A concrete priced message whose single viewable media item is in the
preview list. -/
def wMessage : Message :=
  { text := some "m", price := 4, media :=
      [{ id := 21, can_view := true, type := "video", src := some "v"
         duration := 9, width := 5, height := 6 }]
    previews := [21], from_user := 3, id := 40, created_at := 200 }

/-! ## C4 / C5 -/

/-- **C4.** For every post with its author present, normalization yields
exactly one `NormalizedMedia` per viewable embedded media item, each
carrying the parent post's id as its source id and the post's
price-derived value tag. -/
theorem C4_post_normalization_completeness (post : Post) (a : Int)
    (hauthor : post.author = some a) :
    (normalize_post_media post false).length
      = (post.media.filter (·.can_view)).length ∧
    ∀ nm ∈ normalize_post_media post false,
      nm.source_id = post.id ∧
      nm.value = (if priceTruthy post.price then "paid" else "free") := by
  constructor
  · by_cases hm : post.media = []
    · simp [normalize_post_media, hauthor, hm]
    · simp [normalize_post_media, hauthor, hm]
  · intro nm hnm
    by_cases hm : post.media = [] <;>
      simp [normalize_post_media, hauthor, hm] at hnm
    obtain ⟨media, -, rfl⟩ := hnm
    exact ⟨rfl, rfl⟩

/-- Witness for C4 at the concrete post `wPost` (two media items, one
viewable). -/
theorem C4_post_normalization_completeness_witness :
    (normalize_post_media wPost false).length
      = (wPost.media.filter (·.can_view)).length ∧
    ∀ nm ∈ normalize_post_media wPost false,
      nm.source_id = wPost.id ∧
      nm.value = (if priceTruthy wPost.price then "paid" else "free") :=
  C4_post_normalization_completeness wPost 3 (by decide)

/-- **C5.** Value-tag policy: a normalized post item is `"paid"` exactly
when the post's price is set and nonzero; an archived-post (resp.
message) item is `"paid"` exactly when the parent's price is nonzero
and the item's own media id is not in the parent's preview-id list;
in every other case the tag is `"free"`. -/
theorem C5_value_tag_policy :
    (∀ (p : Post) (s : Bool), ∀ nm ∈ normalize_post_media p s,
      nm.value = if priceTruthy p.price then "paid" else "free") ∧
    (∀ (p : Post) (s : Bool), ∀ nm ∈ normalize_archived_post_media p s,
      nm.value = if priceTruthy p.price ∧ nm.id ∉ p.preview
                 then "paid" else "free") ∧
    (∀ (m : Message), ∀ nm ∈ normalize_message_media m,
      nm.value = if m.price ≠ 0 ∧ nm.id ∉ m.previews
                 then "paid" else "free") := by
  refine ⟨?_, ?_, ?_⟩
  · intro p s nm hnm
    unfold normalize_post_media at hnm
    rcases hp : p.author with - | a <;> rw [hp] at hnm
    · simp at hnm
    · by_cases hc : p.media = [] ∨ (p.expired_at ≠ none ∧ s = true) <;>
        simp [hc] at hnm
      obtain ⟨media, -, rfl⟩ := hnm
      rfl
  · intro p s nm hnm
    unfold normalize_archived_post_media at hnm
    rcases hp : p.author with - | a <;> rw [hp] at hnm
    · simp at hnm
    · by_cases hc : p.media = [] ∨ (p.expired_at ≠ none ∧ s = true) <;>
        simp [hc] at hnm
      obtain ⟨media, -, rfl⟩ := hnm
      rfl
  · intro m nm hnm
    unfold normalize_message_media at hnm
    simp at hnm
    obtain ⟨media, -, rfl⟩ := hnm
    rfl

/-- Witness for C5: instantiates each conjunct at a concrete record —
the priced post `wPost` (tag `"paid"`) and the priced message
`wMessage` whose media id sits in the preview list (tag `"free"`). -/
theorem C5_value_tag_policy_witness :
    ({ user_id := 3, source_type := "posts", source_id := 7, id := 11
       file_type := "photo", created_at := 100, value := "paid"
       text := some "hi", width := 1, height := 2, duration := 4
       url := some "u" } : NormalizedMedia).value
      = (if priceTruthy wPost.price then "paid" else "free") ∧
    ({ user_id := 3, source_type := "messages", source_id := 40, id := 21
       file_type := "video", created_at := 200, value := "free"
       text := some "m", width := 5, height := 6, duration := 9
       url := some "v" } : NormalizedMedia).value
      = (if wMessage.price ≠ 0 ∧
            (21 : Int) ∉ wMessage.previews then "paid" else "free") :=
  ⟨C5_value_tag_policy.1 wPost false _ (by decide),
   C5_value_tag_policy.2.2 wMessage _ (by decide)⟩

/-! ## Dedup ledger and collection fetchers (`client.py`) -/

/-- One persisted row of the per-user `media` table
(`source_type, timestamp, source_id, media_id`). -/
structure LedgerRow where
  source_type : String
  timestamp : Nat
  source_id : Int
  media_id : Int
deriving DecidableEq

/-- The fetchers' high-water-mark read:
`SELECT max(timestamp) FROM media WHERE source_type == s`, with the
`or 0` fallback on a NULL result and the `except sqlite3.OperationalError`
swallow.  `none` models an absent or unreadable ledger. -/
def lastTimestamp (db : Option (List LedgerRow)) (source_type : String) : Nat :=
  match db with
  | none => 0
  | some rows =>
    ((rows.filter (·.source_type == source_type)).map (·.timestamp)).foldl max 0

/-- The `post.media and any(media.can_view for media in post.media)`
guard of the posts fetchers. -/
def postViewableGuard (p : Post) : Bool :=
  !p.media.isEmpty && p.media.any (·.can_view)

/-- Inner `for post in decoded_posts` loop of
`OnlyFansScraper.get_post_media_by_id`: media accumulated from one page
together with whether the early `return` fired. -/
def scanPosts (skip : Bool) (T : Nat) : List Post → List NormalizedMedia × Bool
  | [] => ([], false)
  | p :: rest =>
    if T < p.posted_at then
      let r := scanPosts skip T rest
      ((if postViewableGuard p then normalize_post_media p skip else []) ++ r.1,
       r.2)
    else ([], true)

/-- Page loop of `OnlyFansScraper.get_post_media_by_id` over a synthetic
page sequence; an empty page models the upstream returning no further
posts (`if not decoded_posts: break`). -/
def get_post_media_pages (skip : Bool) (T : Nat) :
    List (List Post) → List NormalizedMedia
  | [] => []
  | page :: rest =>
    if page.isEmpty then []
    else
      let r := scanPosts skip T page
      if r.2 then r.1 else r.1 ++ get_post_media_pages skip T rest

/-- `OnlyFansScraper.get_post_media_by_id`: read the posts high-water
mark from the per-user ledger, then walk the page sequence. -/
def get_post_media_by_id (db : Option (List LedgerRow)) (skip : Bool)
    (pages : List (List Post)) : List NormalizedMedia :=
  get_post_media_pages skip (lastTimestamp db "posts") pages

/-- The post records the page loop can ever examine: page contents
concatenated up to the first empty page. -/
def pagesStream : List (List Post) → List Post
  | [] => []
  | page :: rest => if page.isEmpty then [] else page ++ pagesStream rest

/-- A post failing the viewability guard normalizes to nothing. -/
theorem normalize_post_media_eq_nil_of_guard (p : Post) (skip : Bool)
    (h : postViewableGuard p = false) : normalize_post_media p skip = [] := by
  unfold postViewableGuard at h
  unfold normalize_post_media
  rcases hp : p.author with - | a
  · rfl
  · rcases Bool.and_eq_false_iff.mp h with h' | h'
    · simp only [Bool.not_eq_false'] at h'
      simp [List.isEmpty_iff.mp h']
    · rcases hm : p.media with - | _
      · simp
      · rw [← hm]
        have hall : ∀ x ∈ p.media, x.can_view = false := by simpa using h'
        have : p.media.filter (·.can_view) = [] :=
          List.filter_eq_nil_iff.mpr fun a ha => by simp [hall a ha]
        simp [hm ▸ List.cons_ne_nil _ _, this]

/-- `takeWhile` passes over a fully-satisfying prefix. -/
theorem takeWhile_append_all {α} {p : α → Bool} {l l' : List α}
    (h : l.all p = true) : (l ++ l').takeWhile p = l ++ l'.takeWhile p := by
  induction l with
  | nil => rfl
  | cons a t ih =>
    rcases ha : p a
    · simp [List.all_cons, ha] at h
    · have ht : t.all p = true := by simpa [List.all_cons, ha] using h
      simp [List.takeWhile_cons, ha, ih ht]

/-- `takeWhile` never reaches past a failing element. -/
theorem takeWhile_append_stop {α} {p : α → Bool} {l l' : List α}
    (h : l.all p = false) : (l ++ l').takeWhile p = l.takeWhile p := by
  induction l with
  | nil => simp at h
  | cons a t ih =>
    rcases ha : p a
    · simp [List.takeWhile_cons, ha]
    · have ht : t.all p = false := by simpa [List.all_cons, ha] using h
      simp [List.takeWhile_cons, ha, ih ht]

/-- Characterization of the inner posts loop: it accumulates the
normalization of the strictly-newer prefix, and stops exactly when the
page holds a record at or before the mark. -/
theorem scanPosts_spec (skip : Bool) (T : Nat) (page : List Post) :
    scanPosts skip T page =
      (((page.takeWhile fun p => decide (T < p.posted_at)).map
          fun p => normalize_post_media p skip).flatten,
       !page.all fun p => decide (T < p.posted_at)) := by
  induction page with
  | nil => rfl
  | cons p rest ih =>
    rcases hp : decide (T < p.posted_at)
    · simp only [scanPosts, of_decide_eq_false hp, if_false,
        List.takeWhile_cons, hp, List.all_cons]
      simp
    · simp only [scanPosts, of_decide_eq_true hp, if_true, ih,
        List.takeWhile_cons, hp, List.all_cons]
      rcases hg : postViewableGuard p
      · simp [normalize_post_media_eq_nil_of_guard p skip hg]
      · simp

/-- Characterization of the full page walk of the posts fetcher. -/
theorem get_post_media_pages_spec (skip : Bool) (T : Nat)
    (pages : List (List Post)) :
    get_post_media_pages skip T pages =
      (((pagesStream pages).takeWhile fun p => decide (T < p.posted_at)).map
        fun p => normalize_post_media p skip).flatten := by
  induction pages with
  | nil => rfl
  | cons page rest ih =>
    rcases hpage : page.isEmpty
    · rcases hall : page.all fun p => decide (T < p.posted_at)
      · simp only [get_post_media_pages, pagesStream, hpage, Bool.false_eq_true,
          if_false, scanPosts_spec, hall, Bool.not_false, if_true]
        rw [takeWhile_append_stop hall]
      · simp only [get_post_media_pages, pagesStream, hpage, Bool.false_eq_true,
          if_false, scanPosts_spec, hall, Bool.not_true, if_false, ih]
        rw [takeWhile_append_all hall, List.map_append, List.flatten_append,
          List.takeWhile_eq_self_iff.mpr (List.all_eq_true.mp hall)]
    · simp [get_post_media_pages, pagesStream, hpage]

/-- **C1.** The posts fetcher walks pages newest-first and accumulates
the normalization of exactly the records strictly newer than the
high-water mark `T` that precede the first record at or before `T`;
that first record ends the walk, regardless of what later records or
pages (all part of `pagesStream`) would have contained. -/
theorem C1_posts_fetcher_high_water_mark (skip : Bool) (T : Nat)
    (pages : List (List Post)) :
    get_post_media_pages skip T pages =
      (((pagesStream pages).takeWhile fun p => decide (T < p.posted_at)).map
        fun p => normalize_post_media p skip).flatten :=
  get_post_media_pages_spec skip T pages

/-- **C9.** An absent or unreadable ledger is read as high-water mark 0
(the epoch) and the fetch proceeds normally, treating every record
(each having a positive timestamp) as new. -/
theorem C9_missing_ledger_not_fatal (skip : Bool) (pages : List (List Post))
    (h : ∀ p ∈ pagesStream pages, 0 < p.posted_at) :
    lastTimestamp none "posts" = 0 ∧
    get_post_media_by_id none skip pages =
      ((pagesStream pages).map fun p => normalize_post_media p skip).flatten := by
  refine ⟨rfl, ?_⟩
  unfold get_post_media_by_id
  rw [get_post_media_pages_spec]
  rw [List.takeWhile_eq_self_iff.mpr fun p hp => by
    simpa [lastTimestamp] using h p hp]

/-- A second concrete post, older than `wPost`. -/
def wPost2 : Post :=
  { id := 6, author := some 3, posted_at := 50, expired_at := none
    raw_text := none, price := none
    media := [wPostMedia], preview := [] }

/-- Witness for C9: a two-page sequence with positive timestamps, run
with no ledger. -/
theorem C9_missing_ledger_not_fatal_witness :
    lastTimestamp none "posts" = 0 ∧
    get_post_media_by_id none false [[wPost], [wPost2]] =
      ((pagesStream [[wPost], [wPost2]]).map
        fun p => normalize_post_media p false).flatten :=
  C9_missing_ledger_not_fatal false [[wPost], [wPost2]] (by decide)

/-! ## Stories and highlights fetchers -/

/-- The `for story in reversed(...)` loop shared by
`get_story_media_by_id` (with `break`-equivalent early exit) and, per
category, `get_highlight_media_by_id`; the input list is already
reversed by the caller. -/
def storyWalk (T : Nat) (cat : Option String) : List Story → List NormalizedMedia
  | [] => []
  | s :: rest =>
    if T < s.created_at then
      normalize_story_media s cat ++ storyWalk T cat rest
    else []

/-- `OnlyFansScraper.get_story_media_by_id`: read the stories high-water
mark, then walk the source-ordered story list in reverse. -/
def get_story_media_by_id (db : Option (List LedgerRow))
    (stories : List Story) : List NormalizedMedia :=
  storyWalk (lastTimestamp db "stories") none stories.reverse

/-- `structs.HighlightCategory` (the fields the fetcher reads). -/
structure HighlightCategory where
  id : Int
  title : String
deriving DecidableEq

/-- `OnlyFansScraper.get_highlight_media_by_id`: read the highlights
high-water mark, then, for each category paired with the story list of
its fetched `Highlight`, walk that category's stories in reverse under
the category's title. -/
def get_highlight_media_by_id (db : Option (List LedgerRow))
    (categories : List (HighlightCategory × List Story)) :
    List NormalizedMedia :=
  (categories.map fun c =>
    storyWalk (lastTimestamp db "highlights") (some c.1.title) c.2.reverse).flatten

/-- Characterization of the reversed story walk. -/
theorem storyWalk_spec (T : Nat) (cat : Option String) (l : List Story) :
    storyWalk T cat l =
      ((l.takeWhile fun s => decide (T < s.created_at)).map
        fun s => normalize_story_media s cat).flatten := by
  induction l with
  | nil => rfl
  | cons s rest ih =>
    rcases hs : decide (T < s.created_at)
    · simp [storyWalk, of_decide_eq_false hs, List.takeWhile_cons, hs]
    · simp [storyWalk, of_decide_eq_true hs, List.takeWhile_cons, hs, ih]

/-- **C7.** The story fetcher (and, per highlight category, the
highlight fetcher) reverses the source-ordered story list, accumulates
media from each story strictly newer than the high-water mark, and
stops at the first story at or before the mark — which, with everything
after it in the reversed walk, contributes no media. -/
theorem C7_story_highlight_reverse_walk (db : Option (List LedgerRow))
    (stories : List Story)
    (categories : List (HighlightCategory × List Story)) :
    get_story_media_by_id db stories =
      ((stories.reverse.takeWhile fun s =>
          decide (lastTimestamp db "stories" < s.created_at)).map
        fun s => normalize_story_media s none).flatten ∧
    get_highlight_media_by_id db categories =
      (categories.map fun c =>
        ((c.2.reverse.takeWhile fun s =>
            decide (lastTimestamp db "highlights" < s.created_at)).map
          fun s => normalize_story_media s (some c.1.title)).flatten).flatten := by
  constructor
  · exact storyWalk_spec _ none stories.reverse
  · unfold get_highlight_media_by_id
    congr 1
    exact List.map_congr_left fun c _ => storyWalk_spec _ (some c.1.title) c.2.reverse

/-! ## Messages fetcher -/

/-- The `message.media and any(media.can_view ...)` guard of the
messages fetcher. -/
def messageViewableGuard (m : Message) : Bool :=
  !m.media.isEmpty && m.media.any (·.can_view)

/-- A message failing the viewability guard normalizes to nothing. -/
theorem normalize_message_media_eq_nil_of_guard (m : Message)
    (h : messageViewableGuard m = false) : normalize_message_media m = [] := by
  unfold messageViewableGuard at h
  unfold normalize_message_media
  rcases Bool.and_eq_false_iff.mp h with h' | h'
  · simp only [Bool.not_eq_false'] at h'
    simp [List.isEmpty_iff.mp h']
  · have hall : ∀ x ∈ m.media, x.can_view = false := by simpa using h'
    have : m.media.filter (·.can_view) = [] :=
      List.filter_eq_nil_iff.mpr fun a ha => by simp [hall a ha]
    simp [this]

/-- Inner `for message in decoded_messages.messages` loop of
`OnlyFansScraper.get_message_media_by_id`: media accumulated from one
page together with whether the early `return` fired.  A message is
normalized only when its sender is the target user. -/
def scanMessages (uid : Int) (T : Nat) :
    List Message → List NormalizedMedia × Bool
  | [] => ([], false)
  | m :: rest =>
    if T < m.created_at then
      let r := scanMessages uid T rest
      ((if m.from_user = uid then
          (if messageViewableGuard m then normalize_message_media m else [])
        else []) ++ r.1,
       r.2)
    else ([], true)

/-- Page loop of `get_message_media_by_id`: pages are pairs of a
message list and the response's `has_more` flag; the walk ends at the
first record at or before the mark or after the first page whose
`has_more` is false. -/
def get_message_media_pages (uid : Int) (T : Nat) :
    List (List Message × Bool) → List NormalizedMedia
  | [] => []
  | (page, has_more) :: rest =>
    let r := scanMessages uid T page
    if r.2 then r.1
    else if has_more then r.1 ++ get_message_media_pages uid T rest
    else r.1

/-- `OnlyFansScraper.get_message_media_by_id`: read the messages
high-water mark from the per-user ledger, then walk the chat pages. -/
def get_message_media_by_id (db : Option (List LedgerRow)) (uid : Int)
    (pages : List (List Message × Bool)) : List NormalizedMedia :=
  get_message_media_pages uid (lastTimestamp db "messages") pages

/-- The message records the page loop can examine: page contents
concatenated up to and including the first page whose `has_more` flag
is false. -/
def messagesStream : List (List Message × Bool) → List Message
  | [] => []
  | (page, has_more) :: rest =>
    page ++ (if has_more then messagesStream rest else [])

/-- Characterization of the inner messages loop: it accumulates the
normalization of those strictly-newer prefix messages sent by the
target user, and stops exactly when the page holds a message at or
before the mark. -/
theorem scanMessages_spec (uid : Int) (T : Nat) (page : List Message) :
    scanMessages uid T page =
      ((((page.takeWhile fun m => decide (T < m.created_at)).filter
          fun m => m.from_user == uid).map normalize_message_media).flatten,
       !page.all fun m => decide (T < m.created_at)) := by
  induction page with
  | nil => rfl
  | cons m rest ih =>
    rcases hm : decide (T < m.created_at)
    · simp only [scanMessages, of_decide_eq_false hm, if_false,
        List.takeWhile_cons, hm, List.all_cons]
      simp
    · simp only [scanMessages, of_decide_eq_true hm, if_true, ih,
        List.takeWhile_cons, hm, List.all_cons]
      rcases hu : m.from_user == uid
      · have : ¬ m.from_user = uid := by simpa using hu
        simp [this, List.filter_cons, hu]
      · have huid : m.from_user = uid := by simpa using hu
        rcases hg : messageViewableGuard m
        · simp [huid, List.filter_cons, hu,
            normalize_message_media_eq_nil_of_guard m hg]
        · simp [huid, List.filter_cons, hu]

/-- Characterization of the full page walk of the messages fetcher. -/
theorem get_message_media_pages_spec (uid : Int) (T : Nat)
    (pages : List (List Message × Bool)) :
    get_message_media_pages uid T pages =
      ((((messagesStream pages).takeWhile fun m => decide (T < m.created_at)).filter
        fun m => m.from_user == uid).map normalize_message_media).flatten := by
  induction pages with
  | nil => rfl
  | cons pg rest ih =>
    rcases pg with ⟨page, has_more⟩
    rcases hall : page.all fun m => decide (T < m.created_at)
    · simp only [get_message_media_pages, messagesStream, scanMessages_spec,
        hall, Bool.not_false, if_true]
      rw [takeWhile_append_stop hall]
    · have hpage := List.takeWhile_eq_self_iff.mpr (List.all_eq_true.mp hall)
      rcases has_more
      · simp only [get_message_media_pages, messagesStream, scanMessages_spec,
          hall, Bool.not_true, Bool.false_eq_true, if_false, List.append_nil]
      · simp only [get_message_media_pages, messagesStream, scanMessages_spec,
          hall, Bool.not_true, if_true, ih]
        rw [takeWhile_append_all hall, List.filter_append, List.map_append,
          List.flatten_append]
        simp [hpage]

/-- **C10.** In each chat walk, a message contributes normalized media
only when its sender is the target user: the fetcher equals the
normalization of the sender-filtered strictly-newer prefix (so the
scraping account's own messages are excluded yet, being inside the
`takeWhile` prefix when newer than the mark, do not terminate the
walk), and every produced record carries the target user's id. -/
theorem C10_messages_sender_filter (db : Option (List LedgerRow)) (uid : Int)
    (pages : List (List Message × Bool)) :
    get_message_media_by_id db uid pages =
      ((((messagesStream pages).takeWhile fun m =>
            decide (lastTimestamp db "messages" < m.created_at)).filter
        fun m => m.from_user == uid).map normalize_message_media).flatten ∧
    ∀ nm ∈ get_message_media_by_id db uid pages, nm.user_id = uid := by
  refine ⟨get_message_media_pages_spec uid _ pages, fun nm hnm => ?_⟩
  unfold get_message_media_by_id at hnm
  rw [get_message_media_pages_spec uid _ pages] at hnm
  rw [List.mem_flatten] at hnm
  obtain ⟨l, hl, hnml⟩ := hnm
  rw [List.mem_map] at hl
  obtain ⟨m, hm, rfl⟩ := hl
  have hmu : m.from_user = uid := by
    have := (List.mem_filter.mp hm).2
    simpa using this
  unfold normalize_message_media at hnml
  rw [List.mem_map] at hnml
  obtain ⟨media, -, rfl⟩ := hnml
  exact hmu

/-! ## Filename sanitizer (`client.sanitize_filename`)

The Python function is a pipeline of `re.sub` rewrites over a `str`;
we model the string as its list of code points and each rewrite as a
left-to-right, non-overlapping scan, with the character classes `\s`
and `\w` read at their ASCII meaning. -/

/-- ASCII reading of the regex class `\s`. -/
def pySpace (c : Nat) : Bool :=
  decide (c = 9 ∨ c = 10 ∨ c = 11 ∨ c = 12 ∨ c = 13 ∨ c = 32)

/-- ASCII reading of the regex class `\w` (`[A-Za-z0-9_]`). -/
def wordChar (c : Nat) : Bool :=
  decide ((48 ≤ c ∧ c ≤ 57) ∨ (65 ≤ c ∧ c ≤ 90) ∨ (97 ≤ c ∧ c ≤ 122) ∨ c = 95)

/-- Characters kept by `re.sub(r'[^\w\d_.-]', '', ...)`. -/
def keepChar (c : Nat) : Bool :=
  wordChar c || decide (c = 46) || decide (c = 45)

/-- `re.sub(t+, t)`: collapse each maximal run of the character `t`
to a single occurrence. -/
def collapseRuns (t : Nat) : List Nat → List Nat
  | [] => []
  | [c] => [c]
  | c :: c' :: rest =>
    if c = t ∧ c' = t then collapseRuns t (c' :: rest)
    else c :: collapseRuns t (c' :: rest)

/-- `re.sub(r'(_\.|\._)', '.', ...)`: a left-to-right non-overlapping
scan replacing each two-character match by a dot. -/
def collapseUnderDot : List Nat → List Nat
  | [] => []
  | [c] => [c]
  | c :: c' :: rest =>
    if (c = 95 ∧ c' = 46) ∨ (c = 46 ∧ c' = 95) then 46 :: collapseUnderDot rest
    else c :: collapseUnderDot (c' :: rest)

/-- ASCII reading of `str.lower` on one code point. -/
def pyLower (c : Nat) : Nat := if 65 ≤ c ∧ c ≤ 90 then c + 32 else c

/-- `client.sanitize_filename`: whitespace to underscore, strip
disallowed characters, collapse underscore runs, collapse dot runs,
rewrite `_.`/`._` to `.`, lowercase. -/
def sanitize_filename (s : List Nat) : List Nat :=
  let s1 := s.map fun c => if pySpace c then 95 else c
  let s2 := s1.filter keepChar
  let s3 := collapseRuns 95 s2
  let s4 := collapseRuns 46 s3
  let s5 := collapseUnderDot s4
  s5.map pyLower

/-- The code points of a string (all witnesses here are ASCII, where
code points and UTF-8 bytes agree). -/
def strCodes (s : String) : List Nat := s.data.map Char.toNat

/-- Whether the list contains two adjacent occurrences of `t`. -/
def hasPair (t : Nat) : List Nat → Bool
  | c :: c' :: rest => (c == t && c' == t) || hasPair t (c' :: rest)
  | _ => false

/-- A pair in the tail is a pair of the whole list. -/
theorem hasPair_tail {t c : Nat} {l : List Nat}
    (h : hasPair t (c :: l) = false) : hasPair t l = false := by
  cases l with
  | nil => rfl
  | cons d r => simpa [hasPair] using (Bool.or_eq_false_iff.mp h).2

/-- Prepending a non-`t` character introduces no `t`-pair. -/
theorem hasPair_cons_of_ne {t c : Nat} (l : List Nat) (hc : c ≠ t) :
    hasPair t (c :: l) = hasPair t l := by
  cases l with
  | nil => rfl
  | cons d r => simp [hasPair, hc]

/-- Prepending is pair-free when the head cannot complete a pair. -/
theorem hasPair_cons_false {t c : Nat} {l : List Nat}
    (h : c ≠ t ∨ l.head? ≠ some t) (hl : hasPair t l = false) :
    hasPair t (c :: l) = false := by
  cases l with
  | nil => rfl
  | cons d r =>
    rcases h with h | h
    · simpa [hasPair, h] using hl
    · have hd : d ≠ t := fun hdt => h (by rw [hdt]; rfl)
      simpa [hasPair, hd] using hl

/-- Collapsing runs never changes the head. -/
theorem collapseRuns_head (t : Nat) (l : List Nat) :
    (collapseRuns t l).head? = l.head? := by
  induction l using collapseRuns.induct t with
  | case1 => rfl
  | case2 c => rfl
  | case3 c c' rest h ih =>
    rw [collapseRuns, if_pos h, ih]
    simp [h.1, h.2]
  | case4 c c' rest h ih => rw [collapseRuns, if_neg h]; rfl

/-- Collapsing runs only keeps characters of the input. -/
theorem mem_of_mem_collapseRuns {t : Nat} {l : List Nat} :
    ∀ c ∈ collapseRuns t l, c ∈ l := by
  induction l using collapseRuns.induct t with
  | case1 => simp [collapseRuns]
  | case2 c => simp [collapseRuns]
  | case3 c c' rest h ih =>
    intro x hx
    rw [collapseRuns, if_pos h] at hx
    exact List.mem_cons_of_mem c (ih x hx)
  | case4 c c' rest h ih =>
    intro x hx
    rw [collapseRuns, if_neg h] at hx
    rcases List.mem_cons.mp hx with rfl | hx
    · exact List.mem_cons_self x _
    · exact List.mem_cons_of_mem c (ih x hx)

/-- After collapsing `t`-runs there is no adjacent `t`-pair. -/
theorem hasPair_collapseRuns_self (t : Nat) (l : List Nat) :
    hasPair t (collapseRuns t l) = false := by
  induction l using collapseRuns.induct t with
  | case1 => rfl
  | case2 c => rfl
  | case3 c c' rest h ih => rw [collapseRuns, if_pos h]; exact ih
  | case4 c c' rest h ih =>
    rw [collapseRuns, if_neg h]
    by_cases hc : c = t
    · have hc' : c' ≠ t := fun hc'' => h ⟨hc, hc''⟩
      refine hasPair_cons_false (Or.inr ?_) ih
      rw [collapseRuns_head]
      simpa using hc'
    · rw [hasPair_cons_of_ne _ hc]; exact ih

/-- Collapsing runs of any character creates no new `t`-pair. -/
theorem hasPair_collapseRuns_other {t u : Nat} (l : List Nat) :
    hasPair t l = false → hasPair t (collapseRuns u l) = false := by
  induction l using collapseRuns.induct u with
  | case1 => intro h; exact h
  | case2 c => intro h; exact h
  | case3 c c' rest h ih =>
    intro hl
    rw [collapseRuns, if_pos h]
    exact ih (hasPair_tail hl)
  | case4 c c' rest h ih =>
    intro hl
    rw [collapseRuns, if_neg h]
    by_cases hc : c = t
    · have hc' : c' ≠ t := by
        intro hc''
        have := hl
        simp [hasPair, hc, hc''] at this
      refine hasPair_cons_false (Or.inr ?_) (ih (hasPair_tail hl))
      rw [collapseRuns_head]
      simpa using hc'
    · rw [hasPair_cons_of_ne _ hc]
      exact ih (hasPair_tail hl)

/-- The dot-rewrite only keeps input characters or introduces dots. -/
theorem mem_of_mem_collapseUnderDot {l : List Nat} :
    ∀ c ∈ collapseUnderDot l, c ∈ l ∨ c = 46 := by
  induction l using collapseUnderDot.induct with
  | case1 => simp [collapseUnderDot]
  | case2 c => simp [collapseUnderDot]
  | case3 c c' rest h ih =>
    intro x hx
    rw [collapseUnderDot, if_pos h] at hx
    rcases List.mem_cons.mp hx with rfl | hx
    · right; rfl
    · rcases ih x hx with h' | h'
      · left; simp [h']
      · right; exact h'
  | case4 c c' rest h ih =>
    intro x hx
    rw [collapseUnderDot, if_neg h] at hx
    rcases List.mem_cons.mp hx with rfl | hx
    · left; exact List.mem_cons_self x _
    · rcases ih x hx with h' | h'
      · left; exact List.mem_cons_of_mem c h'
      · right; exact h'

/-- The dot-rewrite introduces no adjacent pair of underscores. -/
theorem hasPair95_collapseUnderDot {l : List Nat} :
    hasPair 95 l = false → hasPair 95 (collapseUnderDot l) = false := by
  induction l using collapseUnderDot.induct with
  | case1 => intro h; exact h
  | case2 c => intro h; exact h
  | case3 c c' rest h ih =>
    intro hl
    rw [collapseUnderDot, if_pos h]
    refine hasPair_cons_false (Or.inl (by omega)) (ih ?_)
    exact hasPair_tail (hasPair_tail hl)
  | case4 c c' rest h ih =>
    intro hl
    rw [collapseUnderDot, if_neg h]
    by_cases hc : c = 95
    · have hc' : c' ≠ 95 := by
        intro hc''
        simp [hasPair, hc, hc''] at hl
      have hhead : (collapseUnderDot (c' :: rest)).head? ≠ some 95 := by
        cases rest with
        | nil => simpa [collapseUnderDot] using hc'
        | cons d r =>
          rw [collapseUnderDot]
          by_cases h2 : (c' = 95 ∧ d = 46) ∨ (c' = 46 ∧ d = 95)
          · rw [if_pos h2]; simp
          · rw [if_neg h2]; simpa using hc'
      exact hasPair_cons_false (Or.inr hhead) (ih (hasPair_tail hl))
    · rw [hasPair_cons_of_ne _ hc]
      exact ih (hasPair_tail hl)

/-- Lowercasing maps 95 to 95 and nothing else to 95. -/
theorem pyLower_eq_95 (c : Nat) : pyLower c = 95 ↔ c = 95 := by
  unfold pyLower
  split <;> omega

/-- Lowercasing neither creates nor destroys underscore pairs. -/
theorem hasPair95_map_pyLower (l : List Nat) :
    hasPair 95 (l.map pyLower) = hasPair 95 l := by
  induction l with
  | nil => rfl
  | cons c rest ih =>
    cases rest with
    | nil => rfl
    | cons d r =>
      have h1 : (pyLower c == 95) = (c == 95) := by
        by_cases hc : c = 95
        · subst hc; decide
        · have hne : pyLower c ≠ 95 := fun h => hc ((pyLower_eq_95 c).mp h)
          simp [hc, hne]
      have h2 : (pyLower d == 95) = (d == 95) := by
        by_cases hd : d = 95
        · subst hd; decide
        · have hne : pyLower d ≠ 95 := fun h => hd ((pyLower_eq_95 d).mp h)
          simp [hd, hne]
      calc hasPair 95 ((c :: d :: r).map pyLower)
          = ((pyLower c == 95 && (pyLower d == 95))
              || hasPair 95 ((d :: r).map pyLower)) := rfl
        _ = ((c == 95 && d == 95) || hasPair 95 (d :: r)) := by
              rw [h1, h2, ih]

/-- Lowercasing keeps allowed characters allowed. -/
theorem keepChar_pyLower {c : Nat} (h : keepChar c = true) :
    keepChar (pyLower c) = true := by
  simp only [keepChar, wordChar, pyLower, Bool.or_eq_true, decide_eq_true_eq] at *
  split <;> omega

/-- Lowercased characters are never ASCII uppercase. -/
theorem pyLower_not_upper (c : Nat) : ¬(65 ≤ pyLower c ∧ pyLower c ≤ 90) := by
  unfold pyLower
  split <;> omega

/-- Allowed characters are never whitespace. -/
theorem pySpace_eq_false_of_keepChar {c : Nat} (h : keepChar c = true) :
    pySpace c = false := by
  simp only [keepChar, wordChar, Bool.or_eq_true, decide_eq_true_eq] at h
  simp only [pySpace, decide_eq_false_iff_not]
  omega

/-- **C8 counterexample.** The claim promises no run of consecutive
dots for any input, but the left-to-right non-overlapping `_.`/`._`
rewrite can create one: the input `"_._._"` sanitizes to `".._"`. -/
theorem C8_sanitize_counterexample :
    sanitize_filename [95, 46, 95, 46, 95] = [46, 46, 95] ∧
    hasPair 46 (sanitize_filename [95, 46, 95, 46, 95]) = true := by decide

/-- **C8 (amended).** Every sanitized filename contains no whitespace,
no character outside word characters, dot and dash, no ASCII uppercase
letter, and no run of consecutive underscores (runs of consecutive
dots can survive the `_.`/`._` rewrite); the spec's example sanitizes
as promised. -/
theorem C8_sanitize_filename_amended :
    (∀ s : List Nat, ∀ c ∈ sanitize_filename s,
        pySpace c = false ∧ keepChar c = true ∧ ¬(65 ≤ c ∧ c ≤ 90)) ∧
    (∀ s : List Nat, hasPair 95 (sanitize_filename s) = false) ∧
    sanitize_filename (strCodes "Hello World! 2024/01/01.jpg")
      = strCodes "hello_world_20240101.jpg" := by
  refine ⟨?_, ?_, by decide⟩
  · intro s c hc
    unfold sanitize_filename at hc
    rw [List.mem_map] at hc
    obtain ⟨d, hd, rfl⟩ := hc
    have hkeep : keepChar d = true := by
      rcases mem_of_mem_collapseUnderDot d hd with hd4 | rfl
      · have hd3 := mem_of_mem_collapseRuns d hd4
        have hd2 := mem_of_mem_collapseRuns d hd3
        exact (List.mem_filter.mp hd2).2
      · decide
    exact ⟨pySpace_eq_false_of_keepChar (keepChar_pyLower hkeep),
      keepChar_pyLower hkeep, pyLower_not_upper d⟩
  · intro s
    unfold sanitize_filename
    rw [hasPair95_map_pyLower]
    exact hasPair95_collapseUnderDot
      (hasPair_collapseRuns_other _ (hasPair_collapseRuns_self 95 _))

/-! ## Request signer (`client.generate_headers`)

`hashlib.sha1` is embedded as a full SHA-1 over byte lists (bytes and
32-bit words as `Nat` reduced mod `2^32`), validated below against the
FIPS-180 test vectors.  Python `str.format` is modelled for anonymous
`{}` placeholders, which is how the rules document's `format` field is
applied (`format.format(digest, checksum)`). -/

/-- UTF-8 encoding of one code point (`str.encode('utf-8')`). -/
def utf8EncodeCp (c : Nat) : List Nat :=
  if c < 128 then [c]
  else if c < 2048 then [192 + c / 64, 128 + c % 64]
  else if c < 65536 then [224 + c / 4096, 128 + (c / 64) % 64, 128 + c % 64]
  else [240 + c / 262144, 128 + (c / 4096) % 64, 128 + (c / 64) % 64, 128 + c % 64]

/-- UTF-8 bytes of a string. -/
def utf8Bytes (s : String) : List Nat :=
  ((s.data.map Char.toNat).map utf8EncodeCp).flatten

/-- 32-bit left rotation. -/
def rotl32 (n x : Nat) : Nat :=
  ((x <<< n) ||| (x >>> (32 - n))) % 4294967296

/-- Big-endian byte decomposition. -/
def toBytesBE (n x : Nat) : List Nat :=
  (List.range n).map fun i => (x >>> (8 * (n - 1 - i))) % 256

/-- SHA-1 message padding. -/
def sha1Pad (msg : List Nat) : List Nat :=
  msg ++ [128] ++ List.replicate ((119 - msg.length % 64) % 64) 0
      ++ toBytesBE 8 (8 * msg.length)

/-- Big-endian 32-bit words of a byte list. -/
def toWordsBE : List Nat → List Nat
  | b0 :: b1 :: b2 :: b3 :: rest =>
    ((((b0 <<< 8) ||| b1) <<< 8 ||| b2) <<< 8 ||| b3) :: toWordsBE rest
  | _ => []

/-- SHA-1 compression of one 16-word block. -/
def sha1Compress (h : Nat × Nat × Nat × Nat × Nat) (block : List Nat) :
    Nat × Nat × Nat × Nat × Nat :=
  let w := (List.range 64).foldl
    (fun w i => w.push
      (rotl32 1 ((w.getD (i + 13) 0) ^^^ (w.getD (i + 8) 0) ^^^
                 (w.getD (i + 2) 0) ^^^ (w.getD i 0))))
    block.toArray
  let s := (List.range 80).foldl
    (fun s t =>
      let (a, b, c, d, e) := s
      let f :=
        if t < 20 then (b &&& c) ||| ((b ^^^ 4294967295) &&& d)
        else if t < 40 then b ^^^ c ^^^ d
        else if t < 60 then (b &&& c) ||| (b &&& d) ||| (c &&& d)
        else b ^^^ c ^^^ d
      let k :=
        if t < 20 then 1518500249
        else if t < 40 then 1859775393
        else if t < 60 then 2400959708
        else 3395469782
      let temp := (rotl32 5 a + f + e + k + w.getD t 0) % 4294967296
      (temp, a, rotl32 30 b, c, d))
    (h.1, h.2.1, h.2.2.1, h.2.2.2.1, h.2.2.2.2)
  ((h.1 + s.1) % 4294967296, (h.2.1 + s.2.1) % 4294967296,
   (h.2.2.1 + s.2.2.1) % 4294967296, (h.2.2.2.1 + s.2.2.2.1) % 4294967296,
   (h.2.2.2.2 + s.2.2.2.2) % 4294967296)

/-- SHA-1 block iteration. -/
def sha1Blocks (h : Nat × Nat × Nat × Nat × Nat) :
    List Nat → Nat × Nat × Nat × Nat × Nat
  | w0 :: w1 :: w2 :: w3 :: w4 :: w5 :: w6 :: w7 :: w8 :: w9 ::
      w10 :: w11 :: w12 :: w13 :: w14 :: w15 :: rest =>
    sha1Blocks (sha1Compress h
      [w0, w1, w2, w3, w4, w5, w6, w7, w8, w9, w10, w11, w12, w13, w14, w15])
      rest
  | _ => h

/-- Lower-case hex digit. -/
def hexDigit (n : Nat) : Char :=
  if n < 10 then Char.ofNat (48 + n) else Char.ofNat (87 + n)

/-- Lower-case hex rendering of one 32-bit word. -/
def toHexWord (x : Nat) : List Char :=
  (List.range 8).map fun i => hexDigit ((x >>> (4 * (7 - i))) % 16)

/-- `hashlib.sha1(...).hexdigest()` over a byte list. -/
def sha1Hex (msg : List Nat) : String :=
  let r := sha1Blocks
    (1732584193, 4023233417, 2562383102, 271733878, 3285377520)
    (toWordsBE (sha1Pad msg))
  ⟨toHexWord r.1 ++ toHexWord r.2.1 ++ toHexWord r.2.2.1 ++
    toHexWord r.2.2.2.1 ++ toHexWord r.2.2.2.2⟩

set_option maxRecDepth 100000 in
/-- The embedded SHA-1 matches the FIPS-180 test vectors. -/
theorem sha1Hex_test_vectors :
    sha1Hex (utf8Bytes "abc") = "a9993e364706816aba3e25717850c26c9cd0d89d" ∧
    sha1Hex (utf8Bytes "") = "da39a3ee5e6b4b0d3255bfef95601890afd80709" := by
  constructor <;> decide

/-- `structs.HeaderRules`: the signing rule set. -/
structure HeaderRules where
  static_param : String
  checksum_indexes : List Nat
  checksum_constant : Int
  app_token : String
  sign_format : String
deriving DecidableEq

/-- Python `str.format` restricted to anonymous `{}` placeholders —
the shape the rules document's `format` field uses; surplus
placeholders beyond the supplied arguments are dropped. -/
def pyFormatAux : List Char → List String → List Char
  | '\x7b' :: '\x7d' :: rest, a :: args => a.data ++ pyFormatAux rest args
  | '\x7b' :: '\x7d' :: rest, [] => pyFormatAux rest []
  | c :: rest, args => c :: pyFormatAux rest args
  | [], _ => []

/-- `template.format(*args)` for anonymous placeholders. -/
def pyFormat (template : String) (args : List String) : String :=
  ⟨pyFormatAux template.data args⟩

/-- `ord(digest[i])` (digest indexes are in range in every real rule
set; out-of-range reads default to 0 where Python would raise). -/
def digestOrd (digest : String) (i : Nat) : Nat :=
  (digest.data.map Char.toNat).getD i 0

/-- The `sign` value computed inside
`OnlyFansScraper.generate_headers`: SHA-1 hex digest of the
newline-join of `static_param`, the decimal timestamp, the URL
path-plus-query and `"0"`, then
`format.format(digest, abs(sum(ord(digest[i])) + checksum_constant))`. -/
def generate_sign (rules : HeaderRules) (url_path : String) (t : Nat) : String :=
  let digest_hex := sha1Hex (utf8Bytes
    (String.intercalate "\n" [rules.static_param, toString t, url_path, "0"]))
  let checksum : Int :=
    (rules.checksum_indexes.foldl
      (fun s i => s + (digestOrd digest_hex i : Int)) 0) + rules.checksum_constant
  pyFormat rules.sign_format [digest_hex, toString checksum.natAbs]

/-- `OnlyFansScraper.generate_headers` (the always-present headers; the
`cookie`/`user-agent` entries appended when those fields are set, and
the `ScrapingException` raised when no rule set was loaded, are
orthogonal to the sign computation). -/
def generate_headers (rules : HeaderRules) (x_bc : String)
    (url_path : String) (t : Nat) : List (String × String) :=
  [("accept", "application/json, text/plain, */*"),
   ("app-token", rules.app_token),
   ("sign", generate_sign rules url_path t),
   ("time", toString t),
   ("x-bc", x_bc)]

/-- Modelled from the spec §4.1: "concatenate `staticParam`, the
decimal unix-second timestamp, the URL path-plus-query, and the
literal `\"0\"`, newline-joined; compute a SHA-1 hex digest; compute
`checksum = sum(ord(digest[i]) for i in checksumIndexes) +
checksumConstant` (absolute value); format the final `sign` header as
`ruleSet.format % (digest, checksum)`." -/
def specSignValue (rules : HeaderRules) (url_path : String) (t : Nat) : String :=
  let d := sha1Hex (utf8Bytes
    (rules.static_param ++ "\n" ++ toString t ++ "\n" ++ url_path ++ "\n" ++ "0"))
  let c := Int.natAbs
    ((rules.checksum_indexes.foldl (fun s i => s + (digestOrd d i : Int)) 0)
      + rules.checksum_constant)
  pyFormat rules.sign_format [d, toString c]

/-- A concrete rule set of the usual shape, whose format embeds the
digest and checksum. -/
def wRules : HeaderRules :=
  { static_param := "GliD2MH7z9ZRCoA3"
    checksum_indexes := [0, 3, 5, 7, 11, 13, 17, 19, 23, 29, 31, 37]
    checksum_constant := -74
    app_token := "33d57ade8c02dbc5a333db99ff9ae26a"
    sign_format := "29591:\x7b\x7d:\x7b\x7d:65" }

/-- A degenerate but well-formed rule set whose format string contains
no placeholder, so the rendered sign ignores digest and checksum. -/
def wRulesConst : HeaderRules :=
  { static_param := "GliD2MH7z9ZRCoA3"
    checksum_indexes := []
    checksum_constant := 0
    app_token := "33d57ade8c02dbc5a333db99ff9ae26a"
    sign_format := "29591:static:65" }

set_option maxRecDepth 100000 in
/-- **C3 counterexample.** The claim's final clause fails as a
universal statement: for a rule set whose format string contains no
placeholder, the rendered sign is the same constant at a timestamp and
at the timestamp one second later. -/
theorem C3_sign_counterexample :
    generate_sign wRulesConst "/api2/v2/users/1" 1700000000
      = generate_sign wRulesConst "/api2/v2/users/1" 1700000001 ∧
    generate_sign wRulesConst "/api2/v2/users/1" 1700000000
      = "29591:static:65" := by
  constructor <;> decide

set_option maxRecDepth 100000 in
/-- **C3 (amended).** For every rule set, path-plus-query and
timestamp, the emitted `sign` header equals the rule set's format
applied to the SHA-1 hex digest of the newline-joined
`[staticParam, decimal timestamp, path, "0"]` and the absolute value
of the index-ord checksum (the spec-side formula `specSignValue`), and
is identical across repeated invocations; the per-second sensitivity
holds for rule sets whose format renders the digest — witnessed at the
concrete rule set `wRules` — but not for placeholder-free formats. -/
theorem C3_sign_header_amended :
    (∀ (rules : HeaderRules) (x_bc url_path : String) (t : Nat),
      (generate_headers rules x_bc url_path t).lookup "sign"
        = some (specSignValue rules url_path t) ∧
      generate_headers rules x_bc url_path t
        = generate_headers rules x_bc url_path t) ∧
    generate_sign wRules "/api2/v2/users/1" 1700000000
      ≠ generate_sign wRules "/api2/v2/users/1" 1700000001 := by
  refine ⟨fun rules x_bc url_path t => ⟨?_, rfl⟩, by decide⟩
  show some (generate_sign rules url_path t) = some (specSignValue rules url_path t)
  unfold generate_sign specSignValue
  rw [show String.intercalate "\n" [rules.static_param, toString t, url_path, "0"]
      = rules.static_param ++ "\n" ++ toString t ++ "\n" ++ url_path ++ "\n" ++ "0" by
    simp [String.intercalate, String.intercalate.go, String.append_assoc]]

/-! ## Download orchestrator (`client.download_media`)

The per-user state is the ledger (the `media` table's rows) and the
user directory's files, modelled as a path→size map.  Network
streaming is modelled by a total `remoteLen` content-length oracle
(the claim's per-item contract presumes the GET succeeds), and the
temp-file-then-rename placement by an atomic map update.  Rendering of
the filename template is the `destPath` parameter (its sanitization
stage is `sanitize_filename` above). -/

/-- State of one user's ledger and download directory. -/
structure DlState where
  ledger : List LedgerRow
  files : List (String × Nat)
deriving DecidableEq

/-- Size of the file at a path, when it exists. -/
def fileLookup (files : List (String × Nat)) (p : String) : Option Nat :=
  (files.find? fun e => e.1 == p).map (·.2)

/-- Place (or overwrite) a file. -/
def fileInsert (p : String) (sz : Nat) (files : List (String × Nat)) :
    List (String × Nat) :=
  (p, sz) :: files.filter fun e => e.1 != p

/-- `Path.rename`: `none` models the `FileNotFoundError` raised when
the source file does not exist. -/
def fileRename (p q : String) (files : List (String × Nat)) :
    Option (List (String × Nat)) :=
  match fileLookup files p with
  | none => none
  | some sz => some (fileInsert q sz (files.filter fun e => e.1 != p))

/-- `SELECT * FROM media WHERE source_type = ? AND source_id = ? AND
media_id = ?` yields a row. -/
def hasRecord (rows : List LedgerRow) (stype : String) (sid mid : Int) : Bool :=
  rows.any fun r =>
    r.source_type == stype && r.source_id == sid && r.media_id == mid

/-- The `match media.file_type` extension table; `none` is the
`unknown media type` skip. -/
def extOf : String → Option String
  | "photo" => some "jpg"
  | "video" => some "mp4"
  | "audio" => some "mp3"
  | "gif" => some "mp4"
  | _ => none

/-- The ledger row inserted for a downloaded media item. -/
def mediaRow (m : NormalizedMedia) : LedgerRow :=
  { source_type := m.source_type, timestamp := m.created_at
    source_id := m.source_id, media_id := m.id }

/-- One iteration of the `for index, media in enumerate(medias)` loop
of `download_media`: skip on a ledger hit, skip unknown file types,
record without writing when the destination already has the remote
length, otherwise place the file and record. -/
def downloadOne (remoteLen : NormalizedMedia → Nat)
    (destPath : NormalizedMedia → Nat → String) (st : DlState)
    (im : Nat × NormalizedMedia) : DlState :=
  let m := im.2
  if hasRecord st.ledger m.source_type m.source_id m.id then st
  else
    match extOf m.file_type with
    | none => st
    | some _ =>
      let dest := destPath m im.1
      if fileLookup st.files dest = some (remoteLen m) then
        { st with ledger := st.ledger ++ [mediaRow m] }
      else
        { ledger := st.ledger ++ [mediaRow m]
          files := fileInsert dest (remoteLen m) st.files }

/-- The media loop of `OnlyFansScraper.download_media`. -/
def download_media (remoteLen : NormalizedMedia → Nat)
    (destPath : NormalizedMedia → Nat → String) (st : DlState)
    (medias : List NormalizedMedia) : DlState :=
  medias.enum.foldl (downloadOne remoteLen destPath) st

/-- `max(existing_avatars, key=itemgetter(1))[1]`: the largest
timestamp among the rows (the code calls it on a non-empty list). -/
def avatarMaxTimestamp (rows : List LedgerRow) : Nat :=
  rows.foldl (fun a r => max a r.timestamp) 0

/-- The avatar block of `download_media`: `ts` is the parsed
`last-modified` timestamp of the fetched avatar and `newLen` its
length.  `none` models the uncaught `FileNotFoundError` when a
recorded `avatar.jpg` is missing on disk. -/
def avatarStep (ts newLen : Nat) (st : DlState) : Option DlState :=
  if hasRecord st.ledger "avatar" (ts : Int) (ts : Int) then some st
  else
    let existing := st.ledger.filter fun r => r.source_type == "avatar"
    let step1 : Option (List (String × Nat)) :=
      if existing.isEmpty then some st.files
      else
        fileRename "avatar.jpg"
          ("avatar-" ++ toString (avatarMaxTimestamp existing) ++ ".jpg")
          st.files
    match step1 with
    | none => none
    | some fs =>
      some { ledger := st.ledger ++
               [{ source_type := "avatar", timestamp := ts
                  source_id := (ts : Int), media_id := (ts : Int) }]
             files := fileInsert "avatar.jpg" newLen fs }

/-- One download step either keeps the ledger or appends the item's row. -/
theorem downloadOne_ledger (rem : NormalizedMedia → Nat)
    (dp : NormalizedMedia → Nat → String) (st : DlState)
    (im : Nat × NormalizedMedia) :
    (downloadOne rem dp st im).ledger = st.ledger ∨
    (downloadOne rem dp st im).ledger = st.ledger ++ [mediaRow im.2] := by
  by_cases h : hasRecord st.ledger im.2.source_type im.2.source_id im.2.id = true
  · left; simp [downloadOne, h]
  · rcases he : extOf im.2.file_type with - | e
    · left; simp [downloadOne, h, he]
    · by_cases hf : fileLookup st.files (dp im.2 im.1) = some (rem im.2)
      · right; simp [downloadOne, h, he, hf]
      · right; simp [downloadOne, h, he, hf]

/-- Ledger hits are stable under further download steps. -/
theorem hasRecord_mono (rem : NormalizedMedia → Nat)
    (dp : NormalizedMedia → Nat → String) (st : DlState)
    (im : Nat × NormalizedMedia) (s : String) (a b : Int)
    (h : hasRecord st.ledger s a b = true) :
    hasRecord (downloadOne rem dp st im).ledger s a b = true := by
  rcases downloadOne_ledger rem dp st im with hl | hl <;> rw [hl]
  · exact h
  · unfold hasRecord at h ⊢
    rw [List.any_append, h, Bool.true_or]

/-- Ledger hits are stable under a whole download run. -/
theorem hasRecord_mono_fold (rem : NormalizedMedia → Nat)
    (dp : NormalizedMedia → Nat → String) (l : List (Nat × NormalizedMedia))
    (st : DlState) (s : String) (a b : Int)
    (h : hasRecord st.ledger s a b = true) :
    hasRecord (l.foldl (downloadOne rem dp) st).ledger s a b = true := by
  induction l generalizing st with
  | nil => exact h
  | cons q t ih => exact ih _ (hasRecord_mono rem dp st q s a b h)

/-- After a download step the item is recorded, unless its file type
is unknown. -/
theorem downloadOne_records (rem : NormalizedMedia → Nat)
    (dp : NormalizedMedia → Nat → String) (st : DlState)
    (im : Nat × NormalizedMedia) :
    hasRecord (downloadOne rem dp st im).ledger
      im.2.source_type im.2.source_id im.2.id = true ∨
    extOf im.2.file_type = none := by
  by_cases h : hasRecord st.ledger im.2.source_type im.2.source_id im.2.id = true
  · left; exact hasRecord_mono rem dp st im _ _ _ h
  · rcases he : extOf im.2.file_type with - | e
    · right; rfl
    · left
      have happ : hasRecord (st.ledger ++ [mediaRow im.2])
          im.2.source_type im.2.source_id im.2.id = true := by
        unfold hasRecord
        rw [List.any_append]
        simp [mediaRow]
      by_cases hf : fileLookup st.files (dp im.2 im.1) = some (rem im.2)
      · have hl : (downloadOne rem dp st im).ledger
            = st.ledger ++ [mediaRow im.2] := by simp [downloadOne, h, he, hf]
        rw [hl]; exact happ
      · have hl : (downloadOne rem dp st im).ledger
            = st.ledger ++ [mediaRow im.2] := by simp [downloadOne, h, he, hf]
        rw [hl]; exact happ

/-- A recorded or unknown-type item leaves the state untouched. -/
theorem downloadOne_skip (rem : NormalizedMedia → Nat)
    (dp : NormalizedMedia → Nat → String) (st : DlState)
    (im : Nat × NormalizedMedia)
    (h : hasRecord st.ledger im.2.source_type im.2.source_id im.2.id = true ∨
         extOf im.2.file_type = none) :
    downloadOne rem dp st im = st := by
  unfold downloadOne
  rcases h with h | h
  · rw [if_pos h]
  · by_cases hr : hasRecord st.ledger im.2.source_type im.2.source_id im.2.id = true
    · rw [if_pos hr]
    · rw [if_neg hr, h]

/-- A run over items that are all recorded or unknown-typed is a no-op. -/
theorem foldl_downloadOne_id (rem : NormalizedMedia → Nat)
    (dp : NormalizedMedia → Nat → String) (l : List (Nat × NormalizedMedia))
    (st : DlState)
    (h : ∀ p ∈ l,
      hasRecord st.ledger p.2.source_type p.2.source_id p.2.id = true ∨
      extOf p.2.file_type = none) :
    l.foldl (downloadOne rem dp) st = st := by
  induction l with
  | nil => rfl
  | cons q t ih =>
    rw [List.foldl_cons, downloadOne_skip rem dp st q (h q (List.mem_cons_self q t))]
    exact ih fun p hp => h p (List.mem_cons_of_mem q hp)

/-- After a full run every item is recorded or unknown-typed. -/
theorem foldl_downloadOne_records (rem : NormalizedMedia → Nat)
    (dp : NormalizedMedia → Nat → String) (l : List (Nat × NormalizedMedia))
    (st : DlState) :
    ∀ p ∈ l,
      hasRecord (l.foldl (downloadOne rem dp) st).ledger
        p.2.source_type p.2.source_id p.2.id = true ∨
      extOf p.2.file_type = none := by
  induction l generalizing st with
  | nil => intro p hp; cases hp
  | cons q t ih =>
    intro p hp
    rcases List.mem_cons.mp hp with rfl | hp
    · rcases downloadOne_records rem dp st p with h | h
      · left
        rw [List.foldl_cons]
        exact hasRecord_mono_fold rem dp t _ _ _ _ h
      · right; exact h
    · exact ih (downloadOne rem dp st q) p hp

/-- A concrete media item with an unrecognized file type. -/
def wDocMedia : NormalizedMedia :=
  { user_id := 3, source_type := "posts", source_id := 7, id := 99
    file_type := "document", created_at := 100, text := some ""
    width := 1, height := 1, duration := 0, url := some "u" }

/-- A concrete photo media item as normalized from `wPost`. -/
def wPhotoNm : NormalizedMedia :=
  { user_id := 3, source_type := "posts", source_id := 7, id := 11
    file_type := "photo", created_at := 100, text := some "hi"
    width := 1, height := 2, duration := 4, url := some "u", value := "paid" }

/-- **C2 counterexample.** A media item of unrecognized file type with
no ledger row and no destination file falls into the claim's
"otherwise stream and insert a row" branch, yet the code skips it
entirely: the state is unchanged and no row is inserted. -/
theorem C2_download_counterexample :
    hasRecord (DlState.ledger ⟨[], []⟩) wDocMedia.source_type
      wDocMedia.source_id wDocMedia.id = false ∧
    fileLookup (DlState.files ⟨[], []⟩) "f" ≠ some 9 ∧
    downloadOne (fun _ => 9) (fun _ _ => "f") ⟨[], []⟩ (0, wDocMedia)
      = ⟨[], []⟩ := by
  refine ⟨rfl, by decide, by decide⟩

/-- **C2 (amended).** Per item: a ledger hit is a no-op; with a known
file type, a destination file of exactly the remote length yields a
ledger insert with no write; otherwise the file is placed at the
destination and the row inserted after placement; an unrecognized file
type is skipped with neither write nor row.  Consequently a second run
over the same items with unchanged ledger and filesystem changes
nothing. -/
theorem C2_download_media_amended :
    (∀ (rem : NormalizedMedia → Nat) (dp : NormalizedMedia → Nat → String)
        (st : DlState) (i : Nat) (m : NormalizedMedia),
      hasRecord st.ledger m.source_type m.source_id m.id = true →
      downloadOne rem dp st (i, m) = st) ∧
    (∀ (rem : NormalizedMedia → Nat) (dp : NormalizedMedia → Nat → String)
        (st : DlState) (i : Nat) (m : NormalizedMedia) (e : String),
      hasRecord st.ledger m.source_type m.source_id m.id = false →
      extOf m.file_type = some e →
      fileLookup st.files (dp m i) = some (rem m) →
      downloadOne rem dp st (i, m)
        = { st with ledger := st.ledger ++ [mediaRow m] }) ∧
    (∀ (rem : NormalizedMedia → Nat) (dp : NormalizedMedia → Nat → String)
        (st : DlState) (i : Nat) (m : NormalizedMedia) (e : String),
      hasRecord st.ledger m.source_type m.source_id m.id = false →
      extOf m.file_type = some e →
      fileLookup st.files (dp m i) ≠ some (rem m) →
      downloadOne rem dp st (i, m)
        = { ledger := st.ledger ++ [mediaRow m]
            files := fileInsert (dp m i) (rem m) st.files }) ∧
    (∀ (rem : NormalizedMedia → Nat) (dp : NormalizedMedia → Nat → String)
        (st : DlState) (i : Nat) (m : NormalizedMedia),
      hasRecord st.ledger m.source_type m.source_id m.id = false →
      extOf m.file_type = none →
      downloadOne rem dp st (i, m) = st) ∧
    (∀ (rem : NormalizedMedia → Nat) (dp : NormalizedMedia → Nat → String)
        (st : DlState) (ms : List NormalizedMedia),
      download_media rem dp (download_media rem dp st ms) ms
        = download_media rem dp st ms) := by
  refine ⟨?_, ?_, ?_, ?_, ?_⟩
  · intro rem dp st i m h
    simp [downloadOne, h]
  · intro rem dp st i m e h he hf
    simp [downloadOne, h, he, hf]
  · intro rem dp st i m e h he hf
    simp [downloadOne, h, he, hf]
  · intro rem dp st i m h he
    simp [downloadOne, h, he]
  · intro rem dp st ms
    unfold download_media
    exact foldl_downloadOne_id rem dp ms.enum _
      (foldl_downloadOne_records rem dp ms.enum st)

/-- Witness for C2: each branch at a concrete item and state, and
idempotence of a run over a photo and an unknown-typed item. -/
theorem C2_download_media_amended_witness :
    downloadOne (fun _ => 9) (fun _ _ => "f")
      ⟨[mediaRow wPhotoNm], []⟩ (0, wPhotoNm) = ⟨[mediaRow wPhotoNm], []⟩ ∧
    downloadOne (fun _ => 9) (fun _ _ => "f")
      ⟨[], [("f", 9)]⟩ (0, wPhotoNm)
      = { ledger := [mediaRow wPhotoNm], files := [("f", 9)] } ∧
    downloadOne (fun _ => 9) (fun _ _ => "f") ⟨[], []⟩ (0, wPhotoNm)
      = { ledger := [mediaRow wPhotoNm], files := fileInsert "f" 9 [] } ∧
    downloadOne (fun _ => 9) (fun _ _ => "f") ⟨[], []⟩ (0, wDocMedia)
      = ⟨[], []⟩ ∧
    download_media (fun _ => 9) (fun _ _ => "f")
      (download_media (fun _ => 9) (fun _ _ => "f") ⟨[], []⟩
        [wPhotoNm, wDocMedia]) [wPhotoNm, wDocMedia]
      = download_media (fun _ => 9) (fun _ _ => "f") ⟨[], []⟩
          [wPhotoNm, wDocMedia] :=
  ⟨C2_download_media_amended.1 _ _ _ 0 wPhotoNm (by decide),
   C2_download_media_amended.2.1 _ _ _ 0 wPhotoNm "jpg" (by decide) rfl (by decide),
   C2_download_media_amended.2.2.1 _ _ _ 0 wPhotoNm "jpg" (by decide) rfl (by decide),
   C2_download_media_amended.2.2.2.1 _ _ _ 0 wDocMedia (by decide) rfl,
   C2_download_media_amended.2.2.2.2 _ _ _ [wPhotoNm, wDocMedia]⟩

/-- The running maximum only grows. -/
theorem foldlMax_le_start (rows : List LedgerRow) (a : Nat) :
    a ≤ rows.foldl (fun acc r => max acc r.timestamp) a := by
  induction rows generalizing a with
  | nil => exact le_refl a
  | cons r t ih => exact le_trans (le_max_left a r.timestamp) (ih _)

/-- Every row's timestamp is bounded by the running maximum. -/
theorem mem_le_foldlMax (rows : List LedgerRow) (a : Nat) :
    ∀ r ∈ rows, r.timestamp ≤ rows.foldl (fun acc r => max acc r.timestamp) a := by
  induction rows generalizing a with
  | nil => intro r hr; cases hr
  | cons q t ih =>
    intro r hr
    rcases List.mem_cons.mp hr with rfl | hr
    · exact le_trans (le_max_right a r.timestamp) (foldlMax_le_start t _)
    · exact ih _ r hr

/-- The running maximum is the start value or some row's timestamp. -/
theorem foldlMax_attained (rows : List LedgerRow) (a : Nat) :
    rows.foldl (fun acc r => max acc r.timestamp) a = a ∨
    ∃ r ∈ rows, rows.foldl (fun acc r => max acc r.timestamp) a = r.timestamp := by
  induction rows generalizing a with
  | nil => left; rfl
  | cons q t ih =>
    rw [List.foldl_cons]
    rcases ih (max a q.timestamp) with h | ⟨r, hr, h⟩
    · rcases max_choice a q.timestamp with hm | hm
      · left; rw [h, hm]
      · right; exact ⟨q, List.mem_cons_self q t, by rw [h, hm]⟩
    · right; exact ⟨r, List.mem_cons_of_mem q hr, h⟩

/-- `avatarMaxTimestamp` is the maximum timestamp of a non-empty row
list. -/
theorem avatarMaxTimestamp_spec (rows : List LedgerRow) (hne : rows ≠ []) :
    (∀ r ∈ rows, r.timestamp ≤ avatarMaxTimestamp rows) ∧
    ∃ r ∈ rows, avatarMaxTimestamp rows = r.timestamp := by
  refine ⟨mem_le_foldlMax rows 0, ?_⟩
  rcases foldlMax_attained rows 0 with h | h
  · rcases rows with - | ⟨q, t⟩
    · exact absurd rfl hne
    · refine ⟨q, List.mem_cons_self q t, ?_⟩
      have hq := mem_le_foldlMax (q :: t) 0 q (List.mem_cons_self q t)
      unfold avatarMaxTimestamp at *
      omega
  · exact h

/-- **C6.** When the fetched avatar's `last-modified` timestamp
differs from every recorded avatar timestamp (all avatar rows carry
their timestamp as both source-id and media-id), the existing
`avatar.jpg` is first renamed to `avatar-<oldTimestamp>.jpg` — with
`oldTimestamp` the maximum previously recorded avatar timestamp — the
new file is placed, and exactly one row `(avatar, ts, ts, ts)` is
appended; when the timestamp already has a matching row, nothing is
written and no row is inserted. -/
theorem C6_avatar_rotation :
    (∀ (st : DlState) (ts newLen oldLen : Nat),
      (∀ r ∈ st.ledger, r.source_type = "avatar" →
        r.source_id = (r.timestamp : Int) ∧ r.media_id = (r.timestamp : Int)) →
      (∀ r ∈ st.ledger, r.source_type = "avatar" → r.timestamp ≠ ts) →
      (∃ r ∈ st.ledger, r.source_type = "avatar") →
      fileLookup st.files "avatar.jpg" = some oldLen →
      avatarStep ts newLen st = some
        { ledger := st.ledger ++
            [{ source_type := "avatar", timestamp := ts
               source_id := (ts : Int), media_id := (ts : Int) }]
          files := fileInsert "avatar.jpg" newLen
            (fileInsert ("avatar-" ++ toString (avatarMaxTimestamp
                  (st.ledger.filter fun r => r.source_type == "avatar")) ++ ".jpg")
              oldLen (st.files.filter fun e => e.1 != "avatar.jpg")) }) ∧
    (∀ (st : DlState) (ts newLen : Nat),
      hasRecord st.ledger "avatar" (ts : Int) (ts : Int) = true →
      avatarStep ts newLen st = some st) ∧
    (∀ rows : List LedgerRow, rows ≠ [] →
      (∀ r ∈ rows, r.timestamp ≤ avatarMaxTimestamp rows) ∧
      ∃ r ∈ rows, avatarMaxTimestamp rows = r.timestamp) := by
  refine ⟨?_, ?_, avatarMaxTimestamp_spec⟩
  · intro st ts newLen oldLen hinv hnew hold hfile
    have hrec : hasRecord st.ledger "avatar" (ts : Int) (ts : Int) = false := by
      rw [hasRecord, List.any_eq_false]
      intro r hr hp
      simp only [Bool.and_eq_true, beq_iff_eq] at hp
      obtain ⟨⟨hty, hsid⟩, -⟩ := hp
      have h1 := (hinv r hr hty).1
      have h2 : r.timestamp = ts := by
        rw [h1] at hsid
        exact_mod_cast hsid
      exact hnew r hr hty h2
    have hne : (st.ledger.filter fun r => r.source_type == "avatar").isEmpty = false := by
      obtain ⟨r, hr, hra⟩ := hold
      have : r ∈ st.ledger.filter fun r => r.source_type == "avatar" :=
        List.mem_filter.mpr ⟨hr, by simp [hra]⟩
      rcases h : st.ledger.filter fun r => r.source_type == "avatar"
      · rw [h] at this; cases this
      · rw [h]; rfl
    simp [avatarStep, hrec, hne, fileRename, hfile]
  · intro st ts newLen h
    simp [avatarStep, h]

/-- Witness for C6: one prior avatar row at timestamp 100 with
`avatar.jpg` on disk, a new avatar at timestamp 200, and the no-op
direction at the recorded timestamp 100. -/
theorem C6_avatar_rotation_witness :
    avatarStep 200 7
      ⟨[{ source_type := "avatar", timestamp := 100
          source_id := 100, media_id := 100 }], [("avatar.jpg", 5)]⟩
      = some
        { ledger := [{ source_type := "avatar", timestamp := 100
                       source_id := 100, media_id := 100 }] ++
            [{ source_type := "avatar", timestamp := 200
               source_id := (200 : Int), media_id := (200 : Int) }]
          files := fileInsert "avatar.jpg" 7
            (fileInsert ("avatar-" ++ toString (avatarMaxTimestamp
                  (List.filter (fun r => r.source_type == "avatar")
                    [{ source_type := "avatar", timestamp := 100
                       source_id := 100, media_id := 100 }])) ++ ".jpg")
              5 (List.filter (fun e => e.1 != "avatar.jpg")
                  [("avatar.jpg", 5)])) } ∧
    avatarStep 100 7
      ⟨[{ source_type := "avatar", timestamp := 100
          source_id := 100, media_id := 100 }], [("avatar.jpg", 5)]⟩
      = some ⟨[{ source_type := "avatar", timestamp := 100
                 source_id := 100, media_id := 100 }], [("avatar.jpg", 5)]⟩ :=
  ⟨C6_avatar_rotation.1 _ 200 7 5 (by decide) (by decide)
      ⟨_, List.mem_cons_self _ _, rfl⟩ (by decide),
   C6_avatar_rotation.2.1 _ 100 7 (by decide)⟩
